import Mathlib

/-!
Verification development for the AUC course-catalog prerequisite parser
(parse_all_courses.py) and the reverse-dependency graph builder
(add_reverse_prerequisites.py).

The Python sources are shallowly embedded as executable Lean definitions.
Text is processed as List Char; Python regular expressions are embedded as
explicit character scanners that reproduce the leftmost-match, greedy and
lazy semantics of the concrete patterns used by the source.  The mutually
recursive parser functions are fueled: the fuel pattern-match makes every
definition structurally recursive, so concrete runs reduce inside the
kernel.  With enough fuel (any terminating run of the Python code needs
only finitely much) the fueled functions agree with the source.
-/

/-! ## Character utilities (Python str semantics) -/

/-- Python whitespace class: the characters matched by the re module's
backslash-s on ASCII text and stripped by str.strip(). -/
def isPySpace (c : Char) : Bool :=
  c = ' ' || c = '\t' || c = '\n' || c = '\r' || c = '\x0b' || c = '\x0c'

/-- Uppercase ASCII letter, the character class in COURSE_PATTERN. -/
def isUpperAZ (c : Char) : Bool := 'A' ≤ c && c ≤ 'Z'

/-- ASCII digit, the backslash-d class of the source's patterns. -/
def isDigit09 (c : Char) : Bool := '0' ≤ c && c ≤ '9'

/-- Word character for the re module's word-boundary: letter, digit or
underscore (ASCII fragment, which covers every pattern in the source). -/
def isWordCh (c : Char) : Bool :=
  isUpperAZ c || ('a' ≤ c && c ≤ 'z') || isDigit09 c || c = '_'

/-- The character class stripped by the source's text.strip(' ,.'). -/
def isPunctSp (c : Char) : Bool := c = ' ' || c = ',' || c = '.'

/-- str.lower() on the ASCII alphabet used by the source's patterns. -/
def toLowerL (cs : List Char) : List Char := cs.map Char.toLower

/-- Strip characters satisfying p from both ends (Python str.strip). -/
def pyStripChars (p : Char → Bool) (cs : List Char) : List Char :=
  ((cs.dropWhile p).reverse.dropWhile p).reverse

/-- Python str.strip() with no argument: strip whitespace from both ends. -/
def pyStrip (cs : List Char) : List Char := pyStripChars isPySpace cs

/-- Does pat occur at the start of cs (exact match)? -/
def startsWithL : List Char → List Char → Bool
  | [], _ => true
  | _ :: _, [] => false
  | p :: ps, c :: cs => p = c && startsWithL ps cs

/-- Case-insensitively drop the literal pattern pat (given in lowercase)
from the front of cs, returning the remainder on success. -/
def dropCI : List Char → List Char → Option (List Char)
  | [], cs => some cs
  | _ :: _, [] => none
  | p :: ps, c :: cs => if c.toLower = p then dropCI ps cs else none

/-- Greedily drop one-or-more whitespace characters (the re module's
backslash-s-plus) from the front of cs. -/
def dropWs1 (cs : List Char) : Option (List Char) :=
  match cs with
  | [] => none
  | c :: rest => if isPySpace c then some (rest.dropWhile isPySpace) else none

/-- Python substring containment: needle occurs somewhere in hay. -/
def isSubL : List Char → List Char → Bool
  | needle, [] => startsWithL needle []
  | needle, c :: t => startsWithL needle (c :: t) || isSubL needle t

/-! ## The AST data model of parse_all_courses.py

The parser emits JSON dictionaries with a type tag.  Course leaves built
by the atomic classifier carry is_concurrent and is_optional keys, while
course leaves built inside the concurrent parser carry only course_code;
the two optional fields are therefore embedded as Option Bool, with none
meaning the key is absent from the dictionary. -/

/-- Categories of the parser's text_conditions keyword table. -/
inductive Category where
  | standing
  | approval
  | exemption
  | preparation
  | other
deriving DecidableEq, Repr

/-- Expression node: the tagged union produced by PrerequisiteParser. -/
inductive Node where
  | course (course_code : String) (is_concurrent : Option Bool) (is_optional : Option Bool)
  | and (children : List Node)
  | or (children : List Node)
  | group (expression : Option Node)
  | concurrent (course : Node) (note : String)
  | textCondition (condition : String) (category : Category)

/-- The per-course result of PrerequisiteParser.parse; parse_error is the
extra key written by the batch loop's exception handler (none when the
key is absent). -/
structure PrereqAST where
  prerequisites : Option Node
  corequisites : Option Node
  raw_text : String
  parse_error : Option String

/-! ## COURSE_PATTERN: word-boundary, 4 letters, optional whitespace, 4 digits -/

/-- A single match of COURSE_PATTERN, kept in its three spans so that the
matched text (letters ++ sep ++ digits) and the space-stripped course
code can both be recovered. -/
structure CMatch where
  letters : List Char
  sep : List Char
  digits : List Char
deriving DecidableEq, Repr

/-- Attempt COURSE_PATTERN at the current position (the leading word
boundary is checked by the caller); returns the match and its length. -/
def matchCourseHere (cs : List Char) : Option (CMatch × Nat) :=
  let L := cs.take 4
  if L.length = 4 && L.all isUpperAZ then
    let r1 := cs.drop 4
    let W := r1.takeWhile isPySpace
    let r2 := r1.drop W.length
    let D := r2.take 4
    if D.length = 4 && D.all isDigit09 then
      match r2.drop 4 with
      | [] => some (⟨L, W, D⟩, 4 + W.length + 4)
      | c :: _ => if isWordCh c then none else some (⟨L, W, D⟩, 4 + W.length + 4)
    else none
  else none

/-- The course code of a match: matched text with spaces removed, exactly
the source's match.group(0).replace(space, empty). -/
def codeOf (m : CMatch) : String := ⟨(m.letters ++ m.sep ++ m.digits).filter (fun c => c ≠ ' ')⟩

/-- re.search of COURSE_PATTERN: first match in left-to-right scan.
prevWord tracks whether the previous character is a word character, so
the leading word boundary can be decided at each position. -/
def searchCourse (prevWord : Bool) : List Char → Option CMatch
  | [] => none
  | c :: rest =>
    if prevWord then searchCourse (isWordCh c) rest
    else
      match matchCourseHere (c :: rest) with
      | some p => some p.1
      | none => searchCourse (isWordCh c) rest

/-- re.findall of COURSE_PATTERN: all non-overlapping matches, scanning
resumes after each match (skip counts characters of the current match
still to be consumed). -/
def findAllCourses (prevWord : Bool) (skip : Nat) : List Char → List CMatch
  | [] => []
  | c :: rest =>
    if skip ≠ 0 then findAllCourses (isWordCh c) (skip - 1) rest
    else if prevWord then findAllCourses (isWordCh c) 0 rest
    else
      match matchCourseHere (c :: rest) with
      | some p => p.1 :: findAllCourses (isWordCh c) (p.2 - 1) rest
      | none => findAllCourses (isWordCh c) 0 rest

/-! ## extract_course_code_from_title (add_reverse_prerequisites.py)

Pattern: group of 4 uppercase letters, optional whitespace, group of 4
digits - note: no word boundaries, unlike COURSE_PATTERN. -/

/-- Attempt the title pattern at the current position. -/
def matchExtractHere (cs : List Char) : Option (List Char × List Char) :=
  let L := cs.take 4
  if L.length = 4 && L.all isUpperAZ then
    let r1 := cs.drop 4
    let r2 := r1.dropWhile isPySpace
    let D := r2.take 4
    if D.length = 4 && D.all isDigit09 then some (L, D) else none
  else none

/-- re.search of the title pattern: leftmost match. -/
def searchExtract : List Char → Option (List Char × List Char)
  | [] => none
  | c :: rest =>
    match matchExtractHere (c :: rest) with
    | some p => some p
    | none => searchExtract rest

/-- Course code from a title: the two match groups concatenated, or the
empty string when the title has no match. -/
def extract_course_code_from_title (title : String) : String :=
  match searchExtract title.data with
  | some p => ⟨p.1 ++ p.2⟩
  | none => ""

/-! ## Literal pattern fragments of the parser -/

def andChars : List Char := "and".data
def orChars : List Char := "or".data
def withChars : List Char := "with".data
def forChars : List Char := "for".data
def concurrentChars : List Char := "concurrent".data
def prereqConcChars : List Char := "prerequisite: concurrent".data
def mustTakenChars : List Char := "must be taken concurrently with".data
def labelPreReqsChars : List Char := "pre-requisites".data
def labelConcColonChars : List Char := "concurrent:".data
def labelPrereqColonChars : List Char := "prerequisite:".data
def concPlaceholder : List Char := "~~~CONCURRENT~~~".data
def tildes3 : List Char := "~~~".data
def andConcRestore : List Char := "and concurrent".data
def groupMark : List Char := "~~~GROUP".data
def concSepChars : List Char := " | Concurrent: ".data

/-! ## Splitting on a separator word: whitespace-plus word whitespace-plus,
case-insensitive (the source's re.split for the words and / or) -/

/-- Length of a separator match starting at the current position, if any:
greedy whitespace run, the word (case-insensitive), then another greedy
whitespace run.  Backtracking cannot shorten either run (the word starts
with a non-whitespace character), so the greedy runs are exact. -/
def matchSepLen (word : List Char) (cs : List Char) : Option Nat :=
  match cs with
  | [] => none
  | c :: _ =>
    if isPySpace c then
      let w1 := (cs.takeWhile isPySpace).length
      match dropCI word (cs.drop w1) with
      | some r2 =>
        match r2 with
        | [] => none
        | d :: _ =>
          if isPySpace d then some (w1 + word.length + (r2.takeWhile isPySpace).length)
          else none
      | none => none
    else none

/-- re.split on the separator: scan left to right, emitting a segment at
each leftmost match and resuming after the matched span. -/
def splitSepGo (word : List Char) (acc : List Char) (skip : Nat) : List Char → List (List Char)
  | [] => [acc.reverse]
  | c :: rest =>
    if skip ≠ 0 then splitSepGo word acc (skip - 1) rest
    else
      match matchSepLen word (c :: rest) with
      | some len => acc.reverse :: splitSepGo word [] (len - 1) rest
      | none => splitSepGo word (c :: acc) 0 rest

def splitSep (word : List Char) (cs : List Char) : List (List Char) :=
  splitSepGo word [] 0 cs

/-! ## split_on_and: protect the bigram "and concurrent" before splitting -/

/-- Length of a match of word-boundary and whitespace-plus concurrent
word-boundary at the current position (leading boundary checked by the
caller via prevWord). -/
def matchAndConcLen (cs : List Char) : Option Nat :=
  match dropCI andChars cs with
  | some r1 =>
    match dropWs1 r1 with
    | some r2 =>
      match dropCI concurrentChars r2 with
      | some r3 =>
        match r3 with
        | [] => some (cs.length - r3.length)
        | d :: _ => if isWordCh d then none else some (cs.length - r3.length)
      | none => none
    | none => none
  | none => none

/-- re.sub replacing each "and concurrent" occurrence with the transient
placeholder, scanning left to right. -/
def subAndConcGo (prevWord : Bool) (skip : Nat) : List Char → List Char
  | [] => []
  | c :: rest =>
    if skip ≠ 0 then subAndConcGo (isWordCh c) (skip - 1) rest
    else if prevWord then c :: subAndConcGo (isWordCh c) 0 rest
    else
      match matchAndConcLen (c :: rest) with
      | some len => concPlaceholder ++ subAndConcGo (isWordCh c) (len - 1) rest
      | none => c :: subAndConcGo (isWordCh c) 0 rest

/-- Python str.replace: replace every non-overlapping occurrence of pat
(left to right) with rep. -/
def replaceAllGo (pat rep : List Char) (skip : Nat) : List Char → List Char
  | [] => []
  | c :: rest =>
    if skip ≠ 0 then replaceAllGo pat rep (skip - 1) rest
    else if startsWithL pat (c :: rest) then rep ++ replaceAllGo pat rep (pat.length - 1) rest
    else c :: replaceAllGo pat rep 0 rest

/-- PrerequisiteParser._split_on_and: substitute the protected bigram,
split on the word and, then restore the bigram in each part. -/
def split_on_and (cs : List Char) : List (List Char) :=
  let t := subAndConcGo false 0 cs
  (splitSep andChars t).map (replaceAllGo concPlaceholder andConcRestore 0)

/-! ## The leading-label strips at the top of _parse_expression -/

/-- Anchored sub removing a leading "Pre-requisites or concurrent:" label
(case-insensitive, flexible whitespace) together with following
whitespace; returns the input unchanged when the label is absent. -/
def stripLabelPreOrConc (cs : List Char) : List Char :=
  match dropCI labelPreReqsChars cs with
  | some r1 =>
    match dropWs1 r1 with
    | some r2 =>
      match dropCI orChars r2 with
      | some r3 =>
        match dropWs1 r3 with
        | some r4 =>
          match dropCI labelConcColonChars r4 with
          | some r5 => r5.dropWhile isPySpace
          | none => cs
        | none => cs
      | none => cs
    | none => cs
  | none => cs

/-- Anchored sub removing a leading "Prerequisite:" label together with
following whitespace. -/
def stripLabelPrereq (cs : List Char) : List Char :=
  match dropCI labelPrereqColonChars cs with
  | some r => r.dropWhile isPySpace
  | none => cs

/-- The normalization performed at the top of _parse_expression: strip
surrounding whitespace, then remove the two known boilerplate labels by
anchored case-insensitive match. -/
def normalizeText (cs : List Char) : List Char :=
  stripLabelPrereq (stripLabelPreOrConc (pyStrip cs))

/-! ## The inline "(or concurrent)" modifier of _parse_atomic -/

/-- Length of a match of the parenthesized or-concurrent modifier at the
current position. -/
def matchOrConcLen (cs : List Char) : Option Nat :=
  match cs with
  | '(' :: r0 =>
    match dropCI orChars (r0.dropWhile isPySpace) with
    | some r2 =>
      match dropWs1 r2 with
      | some r3 =>
        match dropCI concurrentChars r3 with
        | some r4 =>
          match r4.dropWhile isPySpace with
          | ')' :: r5 => some (cs.length - r5.length)
          | _ => none
        | none => none
      | none => none
    | none => none
  | _ => none

/-- re.search of the modifier: first match, returned as the text before
the match together with the text after it. -/
def searchOrConc (before : List Char) : List Char → Option (List Char × List Char)
  | [] => none
  | c :: rest =>
    match matchOrConcLen (c :: rest) with
    | some len => some (before.reverse, (c :: rest).drop len)
    | none => searchOrConc (c :: before) rest

/-! ## The keyword table and _parse_atomic -/

/-- The parser's text_conditions table, in the source's insertion order. -/
def text_conditions : List (Category × List (List Char)) :=
  [ (Category.standing,
      [ "senior standing".data, "junior standing".data, "sophomore standing".data,
        "freshman standing".data, "standing".data ]),
    (Category.approval,
      [ "instructor approval".data, "consent of instructor".data, "approval".data,
        "permission".data, "instructor consent".data ]),
    (Category.exemption, [ "exemption".data ]),
    (Category.preparation, [ "preparation course".data, "college level".data ]) ]

/-- The category loop of _parse_atomic: walk the table in order; whenever
any keyword of a category occurs in the lowered text, overwrite the
current category with that category. -/
def classifyCategory (tl : List Char) : Category :=
  text_conditions.foldl
    (fun acc p => if p.2.any (fun kw => isSubL kw tl) then p.1 else acc)
    Category.other

/-- PrerequisiteParser._parse_atomic. -/
def parse_atomic (text : List Char) : Option Node :=
  if text.isEmpty then none
  else
    let t0 := pyStripChars isPunctSp text
    match searchOrConc [] t0 with
    | some p =>
      let t := pyStrip p.1 ++ pyStrip p.2
      match searchCourse false t with
      | some m => some (.course (codeOf m) (some true) (some false))
      | none =>
        let category := classifyCategory (toLowerL t)
        if category ≠ Category.other || 5 < t.length then
          some (.textCondition ⟨t⟩ category)
        else none
    | none =>
      match searchCourse false t0 with
      | some m => some (.course (codeOf m) (some false) (some false))
      | none =>
        let category := classifyCategory (toLowerL t0)
        if category ≠ Category.other || 5 < t0.length then
          some (.textCondition ⟨t0⟩ category)
        else none

/-- PrerequisiteParser._parse_or_expression. -/
def parse_or_expression (text : List Char) : Option Node :=
  if text.isEmpty then none
  else
    let or_parts := splitSep orChars text
    if 1 < or_parts.length then
      match or_parts.filterMap (fun p => parse_atomic (pyStrip p)) with
      | [c] => some c
      | [] => parse_atomic text
      | c1 :: c2 :: rest => some (.or (c1 :: c2 :: rest))
    else parse_atomic text

/-! ## Group extraction: the re.sub of the non-nested paren pattern with
a counter-driven replacement function -/

/-- Placeholder token for the k-th extracted group. -/
def groupPlaceholder (k : Nat) : List Char :=
  groupMark ++ (Nat.repr k).data ++ tildes3

/-- One left-to-right pass implementing the re.sub of the pattern
open-paren, one-or-more non-paren characters, close-paren: the optional
accumulator holds the inner characters (reversed) of a tentatively open
group.  Returns the substituted text and the placeholder table. -/
def subGroupsGo (k : Nat) (acc : Option (List Char)) : List Char → List Char × List (String × List Char)
  | [] =>
    match acc with
    | none => ([], [])
    | some buf => ('(' :: buf.reverse, [])
  | c :: rest =>
    match acc with
    | none =>
      if c = '(' then subGroupsGo k (some []) rest
      else
        let r := subGroupsGo k none rest
        (c :: r.1, r.2)
    | some buf =>
      if c = ')' then
        if buf.isEmpty then
          let r := subGroupsGo k none rest
          ('(' :: ')' :: r.1, r.2)
        else
          let ph := groupPlaceholder k
          let r := subGroupsGo (k + 1) none rest
          (ph ++ r.1, (⟨ph⟩, buf.reverse) :: r.2)
      else if c = '(' then
        let r := subGroupsGo k (some []) rest
        ('(' :: (buf.reverse ++ r.1), r.2)
      else subGroupsGo k (some (c :: buf)) rest

/-- Group substitution of _parse_with_groups: all maximal non-nested
parenthesized spans replaced by fresh placeholders, plus the
placeholder-to-content table. -/
def subGroups (cs : List Char) : List Char × List (String × List Char) :=
  subGroupsGo 0 none cs

/-- Lookup in the placeholder table (Python dict membership + indexing). -/
def lookupPM : List (String × List Char) → String → Option (List Char)
  | [], _ => none
  | p :: rest, key => if p.1 = key then some p.2 else lookupPM rest key

/-- The list comprehension of _replace_placeholders over and/or children:
apply rn to each child and keep the truthy results. -/
def replaceListWith (rn : Node → Option Node) : List Node → List Node
  | [] => []
  | c :: rest =>
    match rn c with
    | some c2 => c2 :: replaceListWith rn rest
    | none => replaceListWith rn rest

/-- The mutually recursive heart of the parser, structurally fueled.
Component 1 is _parse_expression; component 2 is _replace_placeholders
on a node.  Each cross-call consumes one unit of fuel; with enough fuel
the pair computes exactly what the Python recursion computes. -/
def parseCore : Nat → (List Char → Option Node) × (List (String × List Char) → Node → Option Node)
  | 0 => (fun _ => none, fun _ node => some node)
  | n + 1 =>
    ( fun text =>
        if text.isEmpty then none
        else
          let t := normalizeText text
          if t.contains '(' && t.contains ')' then
            let sg := subGroups t
            match (parseCore n).1 sg.1 with
            | none => none
            | some node => (parseCore n).2 sg.2 node
          else
            let and_parts := split_on_and t
            if 1 < and_parts.length then
              match and_parts.filterMap (fun p => parse_or_expression (pyStrip p)) with
              | [c] => some c
              | [] => parse_or_expression t
              | c1 :: c2 :: rest => some (.and (c1 :: c2 :: rest))
            else parse_or_expression t
      ,
      fun pmap node =>
        match node with
        | .course code ic io =>
          if startsWithL groupMark code.data then
            match lookupPM pmap code with
            | some gtext => some (.group ((parseCore n).1 gtext))
            | none => some (.course code ic io)
          else some (.course code ic io)
        | .and cs => some (.and (replaceListWith ((parseCore n).2 pmap) cs))
        | .or cs => some (.or (replaceListWith ((parseCore n).2 pmap) cs))
        | .group e =>
          some (.group (match e with
            | none => none
            | some x => (parseCore n).2 pmap x))
        | .concurrent c note => some (.concurrent c note)
        | .textCondition s cat => some (.textCondition s cat) )

/-- PrerequisiteParser._parse_expression (fueled). -/
def parse_expression (fuel : Nat) (text : List Char) : Option Node :=
  (parseCore fuel).1 text

/-- PrerequisiteParser._replace_placeholders (fueled). -/
def replace_placeholders (fuel : Nat) (pmap : List (String × List Char)) : Option Node → Option Node
  | none => none
  | some node => (parseCore fuel).2 pmap node

/-- PrerequisiteParser._parse_with_groups (fueled): substitute groups,
parse the substituted text, then replace placeholders in the result. -/
def parse_with_groups (fuel : Nat) (text : List Char) : Option Node :=
  let sg := subGroups text
  replace_placeholders fuel sg.2 (parse_expression fuel sg.1)

/-! ## The note regex of _parse_concurrent: for, whitespace-plus, a lazy
group of at least one non-newline character, then a period or the end
anchor -/

/-- The lazy group: try lengths t, t+1, ... (counter bounds the climb);
succeed at the first length whose next position carries a period or the
end anchor (end of text, or just before a final newline). -/
def noteLazyGo (p : List Char) (t : Nat) : Nat → Option (List Char)
  | 0 => none
  | steps + 1 =>
    if p.length < t then none
    else if (p.take t).all (fun c => c ≠ '\n') &&
            (match p.drop t with
             | '.' :: _ => true
             | q => q.isEmpty || q = [ '\n' ]) then some (p.take t)
    else noteLazyGo p (t + 1) steps

/-- Backtracking of the greedy whitespace run: try runs of length s,
s-1, ..., 1; the group is matched lazily after each. -/
def noteTryS (r1 : List Char) : Nat → Option (List Char)
  | 0 => none
  | s + 1 =>
    let p := r1.drop (s + 1)
    match noteLazyGo p 1 (p.length + 1) with
    | some g => some g
    | none => noteTryS r1 s

/-- Attempt the note pattern at the current position. -/
def matchNoteHere (cs : List Char) : Option (List Char) :=
  match dropCI forChars cs with
  | some r1 =>
    let m := (r1.takeWhile isPySpace).length
    if m = 0 then none else noteTryS r1 m
  | none => none

/-- re.search of the note pattern: leftmost position wins. -/
def searchNote : List Char → Option (List Char)
  | [] => none
  | c :: rest =>
    match matchNoteHere (c :: rest) with
    | some g => some g
    | none => searchNote rest

/-- The note computation of _parse_concurrent: guarded by a plain
substring test for "for", then the regex search, then str.strip(). -/
def noteOf (cs : List Char) : String :=
  if isSubL forChars (toLowerL cs) then
    match searchNote cs with
    | some g => ⟨pyStrip g⟩
    | none => ""
  else ""

/-- PrerequisiteParser._parse_concurrent. -/
def parse_concurrent (text : List Char) : Option Node :=
  if text.isEmpty then none
  else
    let courses := findAllCourses false 0 text
    let note := noteOf text
    match courses with
    | [] => none
    | [m] => some (.concurrent (.course (codeOf m) none none) note)
    | m1 :: m2 :: rest =>
      some (.concurrent (.or ((m1 :: m2 :: rest).map (fun m => Node.course (codeOf m) none none))) note)

/-! ## The concurrent-transition search of _split_prereq_and_concurrent -/

/-- First alternative of the transition pattern, after the optional
comma: whitespace-star, and, whitespace-plus, concurrent,
whitespace-plus, with (all case-insensitive). -/
def tryConcTransTail (x : List Char) : Option (List Char) :=
  match dropCI andChars (x.dropWhile isPySpace) with
  | some x2 =>
    match dropWs1 x2 with
    | some x3 =>
      match dropCI concurrentChars x3 with
      | some x4 =>
        match dropWs1 x4 with
        | some x5 => dropCI withChars x5
        | none => none
      | none => none
    | none => none
  | none => none

/-- Length of a transition match at the current position: the comma-and-
concurrent-with alternative (with and without the optional comma) is
tried before the literal must-be-taken-concurrently-with alternative,
as in the source's alternation order. -/
def matchConcTransLen (cs : List Char) : Option Nat :=
  match (match cs with
         | ',' :: rest =>
           match tryConcTransTail rest with
           | some r => some r
           | none => tryConcTransTail cs
         | _ => tryConcTransTail cs) with
  | some r => some (cs.length - r.length)
  | none =>
    match dropCI mustTakenChars cs with
    | some r => some (cs.length - r.length)
    | none => none

/-- re.search of the transition pattern, returning the text before the
match and the text after it. -/
def searchConcTrans (before : List Char) : List Char → Option (List Char × List Char)
  | [] => none
  | c :: rest =>
    match matchConcTransLen (c :: rest) with
    | some len => some (before.reverse, (c :: rest).drop len)
    | none => searchConcTrans (c :: before) rest

/-- PrerequisiteParser._split_prereq_and_concurrent (fueled through the
expression parser). -/
def split_prereq_and_concurrent (fuel : Nat) (text : List Char) : Option Node × Option Node :=
  if text.isEmpty then (none, none)
  else
    let tl := toLowerL text
    if startsWithL concurrentChars tl || startsWithL prereqConcChars tl then
      (none, parse_concurrent text)
    else
      match searchConcTrans [] text with
      | some p =>
        let prereq_part := pyStrip p.1
        let concurrent_part := pyStrip p.2
        ( if prereq_part.isEmpty then none else parse_expression fuel prereq_part,
          if concurrent_part.isEmpty then none else parse_concurrent concurrent_part )
      | none => (parse_expression fuel text, none)

/-- PrerequisiteParser.parse: the top-level per-course entry point. -/
def parse (fuel : Nat) (prerequisites_text concurrent_text : String) : PrereqAST :=
  if prerequisites_text = "" && concurrent_text = "" then
    { prerequisites := none, corequisites := none, raw_text := "", parse_error := none }
  else
    let full_text := pyStrip prerequisites_text.data
    let pc := split_prereq_and_concurrent fuel full_text
    if concurrent_text = "" then
      { prerequisites := pc.1, corequisites := pc.2, raw_text := ⟨full_text⟩, parse_error := none }
    else
      { prerequisites := pc.1,
        corequisites :=
          match parse_concurrent concurrent_text.data with
          | some fromField =>
            match pc.2 with
            | some cn => some (.and [cn, fromField])
            | none => some fromField
          | none => pc.2,
        raw_text := ⟨full_text ++ concSepChars ++ concurrent_text.data⟩,
        parse_error := none }

/-! ## add_reverse_prerequisites.py: collecting course codes from an AST -/

/-- get_all_prerequisite_courses: extract the course codes of an AST
node.  The Python function accumulates into a set by walking and/or
children, group expressions and - only when include_corequisites is set -
the course node of a concurrent wrapper; the Lean embedding realizes the
child loop by peeling the children list, and returns the collected codes
as a list whose membership agrees with the Python set. -/
def get_all_prerequisite_courses (include_corequisites : Bool) : Node → List String
  | .course code _ _ => [code]
  | .and [] => []
  | .and (c :: cs) =>
    get_all_prerequisite_courses include_corequisites c ++
      get_all_prerequisite_courses include_corequisites (.and cs)
  | .or [] => []
  | .or (c :: cs) =>
    get_all_prerequisite_courses include_corequisites c ++
      get_all_prerequisite_courses include_corequisites (.or cs)
  | .group none => []
  | .group (some e) => get_all_prerequisite_courses include_corequisites e
  | .concurrent c _ =>
    if include_corequisites then get_all_prerequisite_courses include_corequisites c else []
  | .textCondition _ _ => []

/-- The Python call site passes ast.get("prerequisites") which may be
None; None contributes no codes. -/
def getAllOpt (include_corequisites : Bool) : Option Node → List String
  | none => []
  | some n => get_all_prerequisite_courses include_corequisites n

/-- A course record as consumed by add_reverse_prerequisites.py: the
display title (source of the join key) and the prerequisite_ast field. -/
structure CourseRec where
  title : String
  prerequisite_ast : PrereqAST

/-- The reverse maps are Python dicts of sets; they are embedded as
functions from course code to the list of dependent codes, with the
dict's set-insert realized as a membership-guarded cons. -/
def addDependent (m : String → List String) (codes : List String) (course_code : String) :
    String → List String :=
  fun k =>
    if k ∈ codes ∧ k ≠ "" then
      (if course_code ∈ m k then m k else course_code :: m k)
    else m k

/-- The loop body of build_reverse_prerequisite_map for one course: skip
a course without a join key, otherwise record it as a dependent of every
code collected (corequisites excluded) from its prerequisites tree. -/
def addCourseDependents (m : String → List String) (course : CourseRec) : String → List String :=
  if extract_course_code_from_title course.title = "" then m
  else
    addDependent m (getAllOpt false course.prerequisite_ast.prerequisites)
      (extract_course_code_from_title course.title)

/-- The loop body of build_reverse_corequisite_map for one course. -/
def addCourseCoDependents (m : String → List String) (course : CourseRec) : String → List String :=
  if extract_course_code_from_title course.title = "" then m
  else
    addDependent m (getAllOpt true course.prerequisite_ast.corequisites)
      (extract_course_code_from_title course.title)

/-- build_reverse_prerequisite_map: fold the per-course step over the
whole catalog, starting from the empty dict. -/
def build_reverse_prerequisite_map (courses : List CourseRec) : String → List String :=
  courses.foldl addCourseDependents (fun _ => [])

/-- build_reverse_corequisite_map: same fold over the corequisites trees,
this time descending into concurrent wrappers. -/
def build_reverse_corequisite_map (courses : List CourseRec) : String → List String :=
  courses.foldl addCourseCoDependents (fun _ => [])

/-- The is_prerequisite_for field attached by main: the set of dependents
of this course's join key, sorted (Python sorted on str). -/
def is_prerequisite_for (courses : List CourseRec) (course : CourseRec) : List String :=
  List.insertionSort (fun a b => a ≤ b)
    (build_reverse_prerequisite_map courses (extract_course_code_from_title course.title))

/-- The is_corequisite_for field attached by main. -/
def is_corequisite_for (courses : List CourseRec) (course : CourseRec) : List String :=
  List.insertionSort (fun a b => a ≤ b)
    (build_reverse_corequisite_map courses (extract_course_code_from_title course.title))

/-! ## The batch loop of parse_all_courses.main

The loop reads the prerequisites and concurrent fields of each course
record with course.get(key, default-empty).strip().  On a record whose
field holds a non-string JSON value, strip raises AttributeError; the
surrounding try/except then builds an error AST whose raw_text reads the
Python local prereq_text - whatever that name is currently bound to.
The embedding makes the dynamic typing explicit with JVal and threads
the loop-carried binding of prereq_text as an Option String; an
exception escaping the handler itself is an error of the whole batch. -/

/-- A JSON field value: a string, or any non-string value (carrying a
description used in the AttributeError message). -/
inductive JVal where
  | jstr (s : String)
  | jother (descr : String)

/-- An input course record for the batch loop. -/
structure RawCourse where
  title : String
  prerequisites : Option JVal
  concurrent : Option JVal

/-- An output record of the batch loop. -/
structure OutCourse where
  title : String
  prerequisite_ast : PrereqAST

/-- course.get(field, default-empty).strip(): absent field gives the
empty string; a string strips; a non-string raises AttributeError. -/
def getStripped : Option JVal → Except String String
  | none => Except.ok ""
  | some (.jstr s) => Except.ok ⟨pyStrip s.data⟩
  | some (.jother d) => Except.error ( "AttributeError: " ++ d )

/-- The batch loop.  prereq_text_binding is the current value of the
Python local prereq_text entering the iteration (none before the first
assignment).  An AttributeError from the prerequisites field is caught,
but the handler reads prereq_text: unbound, that raises NameError and
aborts the batch; otherwise the stale value becomes raw_text.  An
AttributeError from the concurrent field is caught after prereq_text was
assigned, so the handler records the current course's own text. -/
def processCourses (fuel : Nat) (prereq_text_binding : Option String) :
    List RawCourse → Except String (List OutCourse)
  | [] => Except.ok []
  | course :: rest =>
    match getStripped course.prerequisites with
    | .error e =>
      match prereq_text_binding with
      | none => Except.error "NameError: name prereq_text is not defined"
      | some stale =>
        match processCourses fuel prereq_text_binding rest with
        | .ok outs =>
          Except.ok ({ title := course.title,
                       prerequisite_ast :=
                         { prerequisites := none, corequisites := none,
                           raw_text := stale, parse_error := some e } } :: outs)
        | .error e2 => Except.error e2
    | .ok prereq_text =>
      match getStripped course.concurrent with
      | .error e =>
        match processCourses fuel (some prereq_text) rest with
        | .ok outs =>
          Except.ok ({ title := course.title,
                       prerequisite_ast :=
                         { prerequisites := none, corequisites := none,
                           raw_text := prereq_text, parse_error := some e } } :: outs)
        | .error e2 => Except.error e2
      | .ok concurrent_text =>
        match processCourses fuel (some prereq_text) rest with
        | .ok outs =>
          Except.ok ({ title := course.title,
                       prerequisite_ast := parse fuel prereq_text concurrent_text } :: outs)
        | .error e2 => Except.error e2

/-! ## Spec-side traversals (refinement definitions for claim C5)

These two definitions follow the words of the specification, not the
source: they are compared against get_all_prerequisite_courses. -/

/-- Modelled from the spec: every course code occurring at a Course leaf
of the tree, descending through all wrappers including Concurrent. -/
def courseLeaves : Node → List String
  | .course code _ _ => [code]
  | .and [] => []
  | .and (c :: cs) => courseLeaves c ++ courseLeaves (.and cs)
  | .or [] => []
  | .or (c :: cs) => courseLeaves c ++ courseLeaves (.or cs)
  | .group none => []
  | .group (some e) => courseLeaves e
  | .concurrent c _ => courseLeaves c
  | .textCondition _ _ => []

/-- Modelled from the spec: the course codes reachable by descending
into And/Or children and Group expressions but never entering a
Concurrent wrapper. -/
def courseLeavesOutsideConcurrent : Node → List String
  | .course code _ _ => [code]
  | .and [] => []
  | .and (c :: cs) => courseLeavesOutsideConcurrent c ++ courseLeavesOutsideConcurrent (.and cs)
  | .or [] => []
  | .or (c :: cs) => courseLeavesOutsideConcurrent c ++ courseLeavesOutsideConcurrent (.or cs)
  | .group none => []
  | .group (some e) => courseLeavesOutsideConcurrent e
  | .concurrent _ _ => []
  | .textCondition _ _ => []

/-! ## Spec-side category priority (refinement definition for claim C4) -/

/-- Does any keyword of the given category's row occur in the lowered
fragment? -/
def categoryMatches (c : Category) (tl : List Char) : Bool :=
  match c with
  | .standing => [ "senior standing".data, "junior standing".data, "sophomore standing".data,
                   "freshman standing".data, "standing".data ].any (fun kw => isSubL kw tl)
  | .approval => [ "instructor approval".data, "consent of instructor".data, "approval".data,
                   "permission".data, "instructor consent".data ].any (fun kw => isSubL kw tl)
  | .exemption => [ "exemption".data ].any (fun kw => isSubL kw tl)
  | .preparation => [ "preparation course".data, "college level".data ].any (fun kw => isSubL kw tl)
  | .other => false

/-- Position of a category in the table order of text_conditions. -/
def tableIdx : Category → Nat
  | .standing => 0
  | .approval => 1
  | .exemption => 2
  | .preparation => 3
  | .other => 4

/-! ## Invariant predicates over output ASTs (claims C9 and C10) -/

/-- Shape of a stored course code: four uppercase letters, then the
whitespace separator of the match with its space characters removed
(so only non-space whitespace can remain), then four digits. -/
def sepDigitsOk : List Char → Bool
  | [] => false
  | c :: rest =>
    if isPySpace c && c ≠ ' ' then sepDigitsOk rest
    else (c :: rest).length = 4 && (c :: rest).all isDigit09

/-- Well-formed course code as produced from a COURSE_PATTERN match with
spaces removed. -/
def codeShapeOk (code : String) : Bool :=
  match code.data with
  | a :: b :: c :: d :: rest => [a, b, c, d].all isUpperAZ && sepDigitsOk rest
  | _ => false

/-- Every And and every Or node of the tree has at least two children. -/
inductive MinTwoKids : Node → Prop where
  | course (code : String) (ic io : Option Bool) : MinTwoKids (.course code ic io)
  | and (cs : List Node) (hlen : 2 ≤ cs.length) (h : ∀ c ∈ cs, MinTwoKids c) :
      MinTwoKids (.and cs)
  | or (cs : List Node) (hlen : 2 ≤ cs.length) (h : ∀ c ∈ cs, MinTwoKids c) :
      MinTwoKids (.or cs)
  | groupNone : MinTwoKids (.group none)
  | groupSome (e : Node) (h : MinTwoKids e) : MinTwoKids (.group (some e))
  | concurrent (c : Node) (note : String) (h : MinTwoKids c) : MinTwoKids (.concurrent c note)
  | textCondition (s : String) (cat : Category) : MinTwoKids (.textCondition s cat)

/-- MinTwoKids lifted to an optional tree. -/
def MinTwoOpt : Option Node → Prop
  | none => True
  | some n => MinTwoKids n

/-- Field discipline of Course leaves.  The Bool index tells whether the
position lies inside a Concurrent wrapper: outside, a leaf carries all
three fields with is_optional false; inside, it carries only the code.
Codes always have the space-stripped COURSE_PATTERN shape. -/
inductive LeafFields : Bool → Node → Prop where
  | courseOut (code : String) (b : Bool) (hs : codeShapeOk code = true) :
      LeafFields false (.course code (some b) (some false))
  | courseIn (code : String) (hs : codeShapeOk code = true) :
      LeafFields true (.course code none none)
  | and (side : Bool) (cs : List Node) (h : ∀ c ∈ cs, LeafFields side c) :
      LeafFields side (.and cs)
  | or (side : Bool) (cs : List Node) (h : ∀ c ∈ cs, LeafFields side c) :
      LeafFields side (.or cs)
  | groupNone (side : Bool) : LeafFields side (.group none)
  | groupSome (side : Bool) (e : Node) (h : LeafFields side e) :
      LeafFields side (.group (some e))
  | concurrent (side : Bool) (c : Node) (note : String) (h : LeafFields true c) :
      LeafFields side (.concurrent c note)
  | textCondition (side : Bool) (s : String) (cat : Category) :
      LeafFields side (.textCondition s cat)

/-- LeafFields at the outside position, lifted to an optional tree. -/
def LeafFieldsOpt : Option Node → Prop
  | none => True
  | some n => LeafFields false n

/-- Combined output invariant used by the structural lemmas. -/
def WfNode (n : Node) : Prop := MinTwoKids n ∧ LeafFields false n

/-- WfNode lifted to an optional tree. -/
def WfOpt : Option Node → Prop
  | none => True
  | some n => WfNode n

/-! ## Concrete inputs and records used by the claim theorems -/

def emptyS : String := ""
def phGROUP0 : String := "~~~GROUP0~~~"
def codeCSCE1001 : String := "CSCE1001"
def codeCSCE1101 : String := "CSCE1101"
def codeCSCE2303 : String := "CSCE2303"
def codeMACT2301 : String := "MACT2301"
def codeAAAA : String := "AAAA1111"
def codeBBBB : String := "BBBB2222"

/-- The parenthesized-group scenario text of the specification. -/
def c1_input : List Char := "CSCE 1001 and (CSCE 1101 or CSCE 2303)".data

/-- The tree the claim says the scenario parses to. -/
def c1_claimed_tree : Node :=
  .and [ .course codeCSCE1001 (some false) (some false),
         .group (some (.or [ .course codeCSCE1101 (some false) (some false),
                             .course codeCSCE2303 (some false) (some false) ])) ]

def condAndBang : String := "?? and !!"
def c3_input : List Char := condAndBang.data
def c3_or_input : List Char := "?? or !!".data

def condStandingApproval : String := "standing approval"
def c4_frag : List Char := condStandingApproval.data

def c6_single : List Char := "CSCE 1001".data
def c6_note_input : List Char := "CSCE 1001 for now. Also take CSCE 1101".data
def noteNow : String := "now"
def noteNowVerbatim : String := "now. Also take CSCE 1101"

/-- The COURSE_PATTERN match contained in c6_single. -/
def c6_match : CMatch := { letters := "CSCE".data, sep := [' '], digits := "1001".data }

def c7_err_descr : String := "list object has no attribute strip"
def c7_name_error : String := "NameError: name prereq_text is not defined"
def c7_attr_error : String := "AttributeError: list object has no attribute strip"
def c7_good_text : String := "MACT 2131"

/-- A record whose prerequisites field holds a non-string JSON value. -/
def c7_bad_course : RawCourse :=
  { title := "CSCE 1001 - Intro",
    prerequisites := some (.jother c7_err_descr),
    concurrent := none }

/-- A well-formed record processed before the bad one. -/
def c7_good_course : RawCourse :=
  { title := "MACT 2132 - Stats",
    prerequisites := some (.jstr c7_good_text),
    concurrent := none }

def c8Label : List Char := "  Prerequisite:  ".data
def c8LabelCore : List Char := "Prerequisite:  ".data
def c8LabelTail : List Char := "rerequisite:  ".data
def c8_doublespace : List Char := "a  b".data
def c8_collapsed : List Char := "a b".data
def c8_sample : List Char := "CSCE 1001".data

def c9_concurrent_field : String := "CSCE 1001"
def c9_tab_text : String := "CSCE\t1001"

/-- A prerequisites tree referencing MACT 2301. -/
def c2_ast_with_mact : PrereqAST :=
  { prerequisites := some (.course codeMACT2301 (some false) (some false)),
    corequisites := none, raw_text := "MACT 2301", parse_error := none }

def c2_ast_empty : PrereqAST :=
  { prerequisites := none, corequisites := none, raw_text := "", parse_error := none }

/-- Two records sharing the join key CSCE1001 (only this one requires MACT 2301). -/
def c2_alpha : CourseRec := { title := "CSCE 1001 - Alpha", prerequisite_ast := c2_ast_with_mact }
def c2_beta : CourseRec := { title := "CSCE 1001 - Beta", prerequisite_ast := c2_ast_empty }
def c2_math : CourseRec := { title := "MACT 2301 - Math", prerequisite_ast := c2_ast_empty }
def c2_catalog : List CourseRec := [ c2_alpha, c2_beta, c2_math ]

def c2w_alpha : CourseRec := { title := "CSCE 1001 - Intro", prerequisite_ast := c2_ast_with_mact }
def c2w_math : CourseRec := { title := "MACT 2301 - Math", prerequisite_ast := c2_ast_empty }
def c2w_catalog : List CourseRec := [ c2w_alpha, c2w_math ]

/-- A tree whose BBBB2222 leaf occurs only inside a Concurrent wrapper. -/
def c5_tree : Node :=
  .and [ .course codeAAAA (some false) (some false),
         .concurrent (.course codeBBBB none none) emptyS ]

/-! # Theorems

Helper lemmas first, then one theorem per claim (with witness and
counterexample theorems where the claim's status requires them). -/

/-! ## Membership characterization of the reverse-map fold (claim C2) -/

theorem mem_addDependent (m : String → List String) (codes : List String) (cc p x : String) :
    x ∈ addDependent m codes cc p ↔ x ∈ m p ∨ (x = cc ∧ p ∈ codes ∧ p ≠ "") := by
  unfold addDependent
  by_cases h : p ∈ codes ∧ p ≠ ""
  · rw [if_pos h]
    by_cases hm : cc ∈ m p
    · rw [if_pos hm]
      constructor
      · exact Or.inl
      · rintro (hx | ⟨rfl, _⟩)
        · exact hx
        · exact hm
    · rw [if_neg hm]
      rw [List.mem_cons]
      tauto
  · rw [if_neg h]
    constructor
    · exact Or.inl
    · rintro (hx | ⟨rfl, hmem, hne⟩)
      · exact hx
      · exact absurd ⟨hmem, hne⟩ h

theorem mem_addCourseDependents (m : String → List String) (D : CourseRec) (p x : String) :
    x ∈ addCourseDependents m D p ↔ x ∈ m p ∨
      (x = extract_course_code_from_title D.title ∧
       extract_course_code_from_title D.title ≠ "" ∧
       p ∈ getAllOpt false D.prerequisite_ast.prerequisites ∧ p ≠ "") := by
  unfold addCourseDependents
  by_cases h : extract_course_code_from_title D.title = ""
  · rw [if_pos h]
    tauto
  · rw [if_neg h]
    rw [mem_addDependent]
    tauto

theorem mem_build_fold (L : List CourseRec) (m : String → List String) (p x : String) :
    x ∈ (L.foldl addCourseDependents m) p ↔ x ∈ m p ∨
      ∃ D ∈ L, x = extract_course_code_from_title D.title ∧
        extract_course_code_from_title D.title ≠ "" ∧
        p ∈ getAllOpt false D.prerequisite_ast.prerequisites ∧ p ≠ "" := by
  induction L generalizing m with
  | nil => simp
  | cons D rest ih =>
    rw [List.foldl_cons, ih, mem_addCourseDependents]
    constructor
    · rintro ((hx | hD) | ⟨E, hE, hrest⟩)
      · exact Or.inl hx
      · exact Or.inr ⟨D, List.mem_cons_self D rest, hD⟩
      · exact Or.inr ⟨E, List.mem_cons_of_mem D hE, hrest⟩
    · rintro (hx | ⟨E, hE, hrest⟩)
      · exact Or.inl (Or.inl hx)
      · rcases List.mem_cons.mp hE with rfl | hE2
        · exact Or.inl (Or.inr hrest)
        · exact Or.inr ⟨E, hE2, hrest⟩

theorem mem_build_reverse_prerequisite_map (L : List CourseRec) (p x : String) :
    x ∈ build_reverse_prerequisite_map L p ↔
      ∃ D ∈ L, x = extract_course_code_from_title D.title ∧
        extract_course_code_from_title D.title ≠ "" ∧
        p ∈ getAllOpt false D.prerequisite_ast.prerequisites ∧ p ≠ "" := by
  rw [build_reverse_prerequisite_map, mem_build_fold]
  simp

/-! ## Traversal correspondence lemmas (claim C5) -/

theorem getAll_false_mem_iff (t : Node) (c : String) :
    c ∈ get_all_prerequisite_courses false t ↔ c ∈ courseLeavesOutsideConcurrent t := by
  induction t using get_all_prerequisite_courses.induct false <;>
    simp_all [get_all_prerequisite_courses, courseLeavesOutsideConcurrent]

theorem getAll_true_mem_iff (t : Node) (c : String) :
    c ∈ get_all_prerequisite_courses true t ↔ c ∈ courseLeaves t := by
  induction t using get_all_prerequisite_courses.induct true <;>
    simp_all [get_all_prerequisite_courses, courseLeaves]

/-! ## The category fold as a priority chain (claim C4) -/

theorem classifyCategory_eq (tl : List Char) :
    classifyCategory tl =
      (if categoryMatches .preparation tl then .preparation
       else if categoryMatches .exemption tl then .exemption
       else if categoryMatches .approval tl then .approval
       else if categoryMatches .standing tl then .standing
       else .other) := by
  rfl

/-! ## Character-class and code-shape lemmas (claims C9, C10) -/

theorem upper_ne_space {a : Char} (h : isUpperAZ a = true) : ¬ (a = ' ') := by
  intro hcontra
  subst hcontra
  exact absurd h (by decide)

theorem digit_ne_space {a : Char} (h : isDigit09 a = true) : ¬ (a = ' ') := by
  intro hcontra
  subst hcontra
  exact absurd h (by decide)

theorem pySpace_cases {a : Char} (h : isPySpace a = true) :
    a = ' ' ∨ a = '\t' ∨ a = '\n' ∨ a = '\r' ∨ a = '\x0b' ∨ a = '\x0c' := by
  unfold isPySpace at h
  simp only [Bool.or_eq_true, decide_eq_true_eq] at h
  tauto

theorem digit_not_pySpace {a : Char} (h : isDigit09 a = true) : isPySpace a = false := by
  by_contra hws
  rw [Bool.not_eq_false] at hws
  rcases pySpace_cases hws with rfl | rfl | rfl | rfl | rfl | rfl <;> exact absurd h (by decide)

theorem matchCourseHere_shape {cs : List Char} {m : CMatch} {len : Nat}
    (h : matchCourseHere cs = some (m, len)) :
    m.letters.length = 4 ∧ m.letters.all isUpperAZ = true ∧
    m.sep.all isPySpace = true ∧ m.digits.length = 4 ∧ m.digits.all isDigit09 = true := by
  unfold matchCourseHere at h
  dsimp only at h
  split at h
  case isTrue hL =>
    split at h
    case isTrue hD =>
      rw [Bool.and_eq_true, decide_eq_true_eq] at hL hD
      have hsep : (List.takeWhile isPySpace (List.drop 4 cs)).all isPySpace = true :=
        List.all_eq_true.mpr (fun a ha => List.mem_takeWhile_imp ha)
      split at h
      case h_1 =>
        simp only [Option.some.injEq, Prod.mk.injEq] at h
        obtain ⟨hm, -⟩ := h
        subst hm
        exact ⟨hL.1, hL.2, hsep, hD.1, hD.2⟩
      case h_2 c tail hc =>
        split at h
        · exact absurd h (by simp)
        · simp only [Option.some.injEq, Prod.mk.injEq] at h
          obtain ⟨hm, -⟩ := h
          subst hm
          exact ⟨hL.1, hL.2, hsep, hD.1, hD.2⟩
    case isFalse => exact absurd h (by simp)
  case isFalse => exact absurd h (by simp)

theorem sepDigitsOk_append {W D : List Char}
    (hW : ∀ a ∈ W, isPySpace a = true ∧ ¬(a = ' '))
    (hD4 : D.length = 4) (hDd : D.all isDigit09 = true) :
    sepDigitsOk (W ++ D) = true := by
  induction W with
  | nil =>
    rcases D with _ | ⟨e, rest⟩
    · simp at hD4
    · have he : isDigit09 e = true := by
        have := List.all_eq_true.mp hDd e (List.mem_cons_self e rest)
        exact this
      rw [List.nil_append]
      simp only [sepDigitsOk]
      rw [digit_not_pySpace he]
      simp [hD4, hDd]
    | cons w W ih =>
      have hw := hW w (List.mem_cons_self w W)
      have hrest : ∀ a ∈ W, isPySpace a = true ∧ ¬(a = ' ') :=
        fun a ha => hW a (List.mem_cons_of_mem w ha)
      rw [List.cons_append]
      simp only [sepDigitsOk]
      rw [if_pos (by simp [hw.1, hw.2])]
      exact ih hrest

theorem codeOf_shape {m : CMatch}
    (h1 : m.letters.length = 4) (h2 : m.letters.all isUpperAZ = true)
    (h3 : m.sep.all isPySpace = true)
    (h4 : m.digits.length = 4) (h5 : m.digits.all isDigit09 = true) :
    codeShapeOk (codeOf m) = true := by
  obtain ⟨L, W, D⟩ := m
  dsimp only at h1 h2 h3 h4 h5
  have hLf : L.filter (fun c => c ≠ ' ') = L :=
    List.filter_eq_self.mpr (fun a ha => by
      simpa using upper_ne_space (List.all_eq_true.mp h2 a ha))
  have hDf : D.filter (fun c => c ≠ ' ') = D :=
    List.filter_eq_self.mpr (fun a ha => by
      simpa using digit_ne_space (List.all_eq_true.mp h5 a ha))
  have hWf : ∀ a ∈ W.filter (fun c => c ≠ ' '), isPySpace a = true ∧ ¬(a = ' ') := by
    intro a ha
    rw [List.mem_filter] at ha
    exact ⟨List.all_eq_true.mp h3 a ha.1, by simpa using ha.2⟩
  rcases L with _ | ⟨a, L1⟩
  · simp at h1
  rcases L1 with _ | ⟨b, L2⟩
  · simp at h1
  rcases L2 with _ | ⟨c, L3⟩
  · simp at h1
  rcases L3 with _ | ⟨d, L4⟩
  · simp at h1
  rcases L4 with _ | ⟨e, L5⟩
  · show codeShapeOk ⟨([a, b, c, d] ++ W ++ D).filter (fun c => c ≠ ' ')⟩ = true
    rw [List.append_assoc, List.filter_append, hLf]
    rw [List.filter_append, hDf]
    show codeShapeOk ⟨a :: b :: c :: d :: (W.filter (fun c => c ≠ ' ') ++ D)⟩ = true
    simp only [codeShapeOk]
    rw [sepDigitsOk_append hWf h4 h5]
    simp only [Bool.and_true]
    exact h2
  · simp at h1

theorem searchCourse_shape {pw : Bool} {cs : List Char} {m : CMatch}
    (h : searchCourse pw cs = some m) : codeShapeOk (codeOf m) = true := by
  induction cs generalizing pw with
  | nil => simp [searchCourse] at h
  | cons c rest ih =>
    rw [searchCourse] at h
    split at h
    · exact ih h
    · split at h
      · rename_i p hp
        obtain ⟨mm, len⟩ := p
        have hs := matchCourseHere_shape hp
        rw [← Option.some.inj h]
        exact codeOf_shape hs.1 hs.2.1 hs.2.2.1 hs.2.2.2.1 hs.2.2.2.2
      · exact ih h

theorem findAllCourses_shape {pw : Bool} {skip : Nat} {cs : List Char} {m : CMatch}
    (h : m ∈ findAllCourses pw skip cs) : codeShapeOk (codeOf m) = true := by
  induction cs generalizing pw skip with
  | nil => simp [findAllCourses] at h
  | cons c rest ih =>
    rw [findAllCourses] at h
    split at h
    · exact ih h
    · split at h
      · exact ih h
      · split at h
        · rename_i p hp
          obtain ⟨mm, len⟩ := p
          rcases List.mem_cons.mp h with rfl | h2
          · have hs := matchCourseHere_shape hp
            exact codeOf_shape hs.1 hs.2.1 hs.2.2.1 hs.2.2.2.1 hs.2.2.2.2
          · exact ih h2
        · exact ih h

/-! ## Well-formedness of parser outputs (claims C9, C10) -/

theorem parse_atomic_wf {t : List Char} {node : Node}
    (h : parse_atomic t = some node) : WfNode node := by
  unfold parse_atomic at h
  split at h
  · exact absurd h (by simp)
  · dsimp only at h
    split at h
    · split at h
      · rename_i m hm
        rw [← Option.some.inj h]
        exact ⟨MinTwoKids.course _ _ _, LeafFields.courseOut _ _ (searchCourse_shape hm)⟩
      · split at h
        · rw [← Option.some.inj h]
          exact ⟨MinTwoKids.textCondition _ _, LeafFields.textCondition _ _ _⟩
        · exact absurd h (by simp)
    · split at h
      · rename_i m hm
        rw [← Option.some.inj h]
        exact ⟨MinTwoKids.course _ _ _, LeafFields.courseOut _ _ (searchCourse_shape hm)⟩
      · split at h
        · rw [← Option.some.inj h]
          exact ⟨MinTwoKids.textCondition _ _, LeafFields.textCondition _ _ _⟩
        · exact absurd h (by simp)

theorem parse_or_expression_wf {t : List Char} {node : Node}
    (h : parse_or_expression t = some node) : WfNode node := by
  unfold parse_or_expression at h
  split at h
  · exact absurd h (by simp)
  · dsimp only at h
    split at h
    · split at h
      · rename_i c heq
        rw [← Option.some.inj h]
        have hc : c ∈ (splitSep orChars t).filterMap (fun p => parse_atomic (pyStrip p)) := by
          rw [heq]
          exact List.mem_cons_self c []
        obtain ⟨p, _, hpa⟩ := List.mem_filterMap.mp hc
        exact parse_atomic_wf hpa
      · exact parse_atomic_wf h
      · rename_i c1 c2 rest heq
        rw [← Option.some.inj h]
        have hmem : ∀ x ∈ c1 :: c2 :: rest, WfNode x := by
          intro x hx
          have hx2 : x ∈ (splitSep orChars t).filterMap (fun p => parse_atomic (pyStrip p)) := by
            rw [heq]
            exact hx
          obtain ⟨p, _, hpa⟩ := List.mem_filterMap.mp hx2
          exact parse_atomic_wf hpa
        exact ⟨MinTwoKids.or _ (by simp only [List.length_cons]; omega)
                 (fun x hx => (hmem x hx).1),
               LeafFields.or _ _ (fun x hx => (hmem x hx).2)⟩
    · exact parse_atomic_wf h

theorem parse_concurrent_wf {t : List Char} {node : Node}
    (h : parse_concurrent t = some node) : WfNode node := by
  unfold parse_concurrent at h
  split at h
  · exact absurd h (by simp)
  · dsimp only at h
    split at h
    · exact absurd h (by simp)
    · rename_i m heq
      rw [← Option.some.inj h]
      have hm : m ∈ findAllCourses false 0 t := by
        rw [heq]
        exact List.mem_cons_self m []
      exact ⟨MinTwoKids.concurrent _ _ (MinTwoKids.course _ _ _),
             LeafFields.concurrent _ _ _ (LeafFields.courseIn _ (findAllCourses_shape hm))⟩
    · rename_i m1 m2 ms heq
      rw [← Option.some.inj h]
      have hsub : ∀ mm ∈ m1 :: m2 :: ms, mm ∈ findAllCourses false 0 t := by
        intro mm hmm
        rw [heq]
        exact hmm
      constructor
      · refine MinTwoKids.concurrent _ _ (MinTwoKids.or _ ?_ ?_)
        · simp only [List.length_map, List.length_cons]
          omega
        · intro x hx
          obtain ⟨mm, hmm, rfl⟩ := List.mem_map.mp hx
          exact MinTwoKids.course _ _ _
      · refine LeafFields.concurrent _ _ _ (LeafFields.or _ _ ?_)
        intro x hx
        obtain ⟨mm, hmm, rfl⟩ := List.mem_map.mp hx
        exact LeafFields.courseIn _ (findAllCourses_shape (hsub mm hmm))

theorem parseCore_replace_some (n : Nat) (pmap : List (String × List Char)) (node : Node) :
    ∃ node2, (parseCore n).2 pmap node = some node2 := by
  cases n with
  | zero => exact ⟨node, rfl⟩
  | succ k =>
    cases node with
    | course code ic io =>
      simp only [parseCore]
      split
      · split
        · exact ⟨_, rfl⟩
        · exact ⟨_, rfl⟩
      · exact ⟨_, rfl⟩
    | and cs => exact ⟨_, rfl⟩
    | or cs => exact ⟨_, rfl⟩
    | group e => exact ⟨_, rfl⟩
    | concurrent c note => exact ⟨_, rfl⟩
    | textCondition s cat => exact ⟨_, rfl⟩

theorem replaceListWith_length (rn : Node → Option Node)
    (hsome : ∀ c, ∃ c2, rn c = some c2) (cs : List Node) :
    (replaceListWith rn cs).length = cs.length := by
  induction cs with
  | nil => rfl
  | cons c rest ih =>
    rw [replaceListWith]
    obtain ⟨c2, hc2⟩ := hsome c
    rw [hc2]
    simp [ih]

theorem replaceListWith_mem (rn : Node → Option Node) (cs : List Node) (x : Node)
    (hx : x ∈ replaceListWith rn cs) : ∃ c ∈ cs, rn c = some x := by
  induction cs with
  | nil => simp [replaceListWith] at hx
  | cons c rest ih =>
    rw [replaceListWith] at hx
    split at hx
    · rename_i c2 hc2
      rcases List.mem_cons.mp hx with rfl | h2
      · exact ⟨c, List.mem_cons_self c rest, hc2⟩
      · obtain ⟨d, hd, hd2⟩ := ih h2
        exact ⟨d, List.mem_cons_of_mem c hd, hd2⟩
    · obtain ⟨d, hd, hd2⟩ := ih hx
      exact ⟨d, List.mem_cons_of_mem c hd, hd2⟩

theorem parseCore_wf (n : Nat) :
    (∀ text node, (parseCore n).1 text = some node → WfNode node) ∧
    (∀ pmap node node2, WfNode node → (parseCore n).2 pmap node = some node2 → WfNode node2) := by
  induction n with
  | zero =>
    constructor
    · intro text node h
      exact absurd h (by simp [parseCore])
    · intro pmap node node2 hw h
      rw [← Option.some.inj h]
      exact hw
  | succ k ih =>
    constructor
    · intro text node h
      simp only [parseCore] at h
      split at h
      · exact absurd h (by simp)
      · split at h
        · split at h
          · exact absurd h (by simp)
          · rename_i nd hnd
            exact ih.2 _ _ _ (ih.1 _ _ hnd) h
        · split at h
          · split at h
            · rename_i c heq
              rw [← Option.some.inj h]
              have hc : c ∈ (split_on_and (normalizeText text)).filterMap
                  (fun p => parse_or_expression (pyStrip p)) := by
                rw [heq]
                exact List.mem_cons_self c []
              obtain ⟨p, _, hpa⟩ := List.mem_filterMap.mp hc
              exact parse_or_expression_wf hpa
            · exact parse_or_expression_wf h
            · rename_i c1 c2 rest heq
              rw [← Option.some.inj h]
              have hmem : ∀ x ∈ c1 :: c2 :: rest, WfNode x := by
                intro x hx
                have hx2 : x ∈ (split_on_and (normalizeText text)).filterMap
                    (fun p => parse_or_expression (pyStrip p)) := by
                  rw [heq]
                  exact hx
                obtain ⟨p, _, hpa⟩ := List.mem_filterMap.mp hx2
                exact parse_or_expression_wf hpa
              exact ⟨MinTwoKids.and _ (by simp only [List.length_cons]; omega)
                       (fun x hx => (hmem x hx).1),
                     LeafFields.and _ _ (fun x hx => (hmem x hx).2)⟩
          · exact parse_or_expression_wf h
    · intro pmap node node2 hw h
      cases node with
      | course code ic io =>
        simp only [parseCore] at h
        split at h
        · split at h
          · rename_i gtext hg
            rw [← Option.some.inj h]
            cases hpe : (parseCore k).1 gtext with
            | none => exact ⟨MinTwoKids.groupNone, LeafFields.groupNone _⟩
            | some x =>
              have hx := ih.1 _ _ hpe
              exact ⟨MinTwoKids.groupSome _ hx.1, LeafFields.groupSome _ _ hx.2⟩
          · rw [← Option.some.inj h]
            exact hw
        · rw [← Option.some.inj h]
          exact hw
      | and cs =>
        simp only [parseCore] at h
        rw [← Option.some.inj h]
        obtain ⟨hm, hl⟩ := hw
        cases hm with
        | and _ hlen hkids =>
          cases hl with
          | and _ _ hlf =>
            have hnew : ∀ x ∈ replaceListWith ((parseCore k).2 pmap) cs, WfNode x := by
              intro x hx
              obtain ⟨c, hc, hc2⟩ := replaceListWith_mem _ _ _ hx
              exact ih.2 _ _ _ ⟨hkids c hc, hlf c hc⟩ hc2
            have hlen2 : (replaceListWith ((parseCore k).2 pmap) cs).length = cs.length :=
              replaceListWith_length _ (fun c => parseCore_replace_some k pmap c) cs
            exact ⟨MinTwoKids.and _ (by omega) (fun x hx => (hnew x hx).1),
                   LeafFields.and _ _ (fun x hx => (hnew x hx).2)⟩
      | or cs =>
        simp only [parseCore] at h
        rw [← Option.some.inj h]
        obtain ⟨hm, hl⟩ := hw
        cases hm with
        | or _ hlen hkids =>
          cases hl with
          | or _ _ hlf =>
            have hnew : ∀ x ∈ replaceListWith ((parseCore k).2 pmap) cs, WfNode x := by
              intro x hx
              obtain ⟨c, hc, hc2⟩ := replaceListWith_mem _ _ _ hx
              exact ih.2 _ _ _ ⟨hkids c hc, hlf c hc⟩ hc2
            have hlen2 : (replaceListWith ((parseCore k).2 pmap) cs).length = cs.length :=
              replaceListWith_length _ (fun c => parseCore_replace_some k pmap c) cs
            exact ⟨MinTwoKids.or _ (by omega) (fun x hx => (hnew x hx).1),
                   LeafFields.or _ _ (fun x hx => (hnew x hx).2)⟩
      | group e =>
        simp only [parseCore] at h
        rw [← Option.some.inj h]
        cases e with
        | none => exact ⟨MinTwoKids.groupNone, LeafFields.groupNone _⟩
        | some x =>
          obtain ⟨hm, hl⟩ := hw
          cases hm with
          | groupSome _ hmx =>
            cases hl with
            | groupSome _ _ hlx =>
              show WfNode (Node.group ((parseCore k).2 pmap x))
              cases hrx : (parseCore k).2 pmap x with
              | none => exact ⟨MinTwoKids.groupNone, LeafFields.groupNone _⟩
              | some x2 =>
                have hx2 := ih.2 _ _ _ ⟨hmx, hlx⟩ hrx
                exact ⟨MinTwoKids.groupSome _ hx2.1, LeafFields.groupSome _ _ hx2.2⟩
      | concurrent c note =>
        simp only [parseCore] at h
        rw [← Option.some.inj h]
        exact hw
      | textCondition s cat =>
        simp only [parseCore] at h
        rw [← Option.some.inj h]
        exact hw

theorem parse_expression_wf {fuel : Nat} {t : List Char} {node : Node}
    (h : parse_expression fuel t = some node) : WfNode node :=
  (parseCore_wf fuel).1 t node h

theorem wfOpt_of (o : Option Node) (h : ∀ nd, o = some nd → WfNode nd) : WfOpt o := by
  cases o with
  | none => trivial
  | some nd => exact h nd rfl

theorem split_prereq_and_concurrent_wf (fuel : Nat) (t : List Char) :
    WfOpt (split_prereq_and_concurrent fuel t).1 ∧
    WfOpt (split_prereq_and_concurrent fuel t).2 := by
  unfold split_prereq_and_concurrent
  split
  · exact ⟨trivial, trivial⟩
  · dsimp only
    split
    · refine ⟨trivial, wfOpt_of _ ?_⟩
      intro nd h
      exact parse_concurrent_wf h
    · split
      · dsimp only
        constructor
        · refine wfOpt_of _ ?_
          intro nd h
          split at h
          · exact absurd h (by simp)
          · exact parse_expression_wf h
        · refine wfOpt_of _ ?_
          intro nd h
          split at h
          · exact absurd h (by simp)
          · exact parse_concurrent_wf h
      · refine ⟨wfOpt_of _ ?_, trivial⟩
        intro nd h
        exact parse_expression_wf h

theorem parse_wf (fuel : Nat) (prerequisites_text concurrent_text : String) :
    WfOpt (parse fuel prerequisites_text concurrent_text).prerequisites ∧
    WfOpt (parse fuel prerequisites_text concurrent_text).corequisites := by
  unfold parse
  split
  · exact ⟨trivial, trivial⟩
  · dsimp only
    split
    · exact split_prereq_and_concurrent_wf fuel (pyStrip prerequisites_text.data)
    · constructor
      · exact (split_prereq_and_concurrent_wf fuel (pyStrip prerequisites_text.data)).1
      · refine wfOpt_of _ ?_
        intro nd h
        dsimp only at h
        cases hcf : parse_concurrent concurrent_text.data with
        | none =>
          rw [hcf] at h
          dsimp only at h
          have h2 := (split_prereq_and_concurrent_wf fuel (pyStrip prerequisites_text.data)).2
          rw [h] at h2
          exact h2
        | some fromField =>
          rw [hcf] at h
          dsimp only at h
          cases hpc : (split_prereq_and_concurrent fuel (pyStrip prerequisites_text.data)).2 with
          | none =>
            rw [hpc] at h
            dsimp only at h
            rw [← Option.some.inj h]
            exact parse_concurrent_wf hcf
          | some cn =>
            rw [hpc] at h
            dsimp only at h
            rw [← Option.some.inj h]
            have hcn : WfNode cn := by
              have h2 := (split_prereq_and_concurrent_wf fuel (pyStrip prerequisites_text.data)).2
              rw [hpc] at h2
              exact h2
            have hff := parse_concurrent_wf hcf
            have hmem : ∀ x ∈ [cn, fromField], WfNode x := by
              intro x hx
              rcases List.mem_cons.mp hx with rfl | hx2
              · exact hcn
              · rcases List.mem_cons.mp hx2 with rfl | hx3
                · exact hff
                · exact absurd hx3 (by simp)
            exact ⟨MinTwoKids.and _ (by simp) (fun x hx => (hmem x hx).1),
                   LeafFields.and _ _ (fun x hx => (hmem x hx).2)⟩

theorem minTwoOpt_of_wfOpt {o : Option Node} (h : WfOpt o) : MinTwoOpt o := by
  cases o with
  | none => trivial
  | some nd => exact h.1

theorem leafFieldsOpt_of_wfOpt {o : Option Node} (h : WfOpt o) : LeafFieldsOpt o := by
  cases o with
  | none => trivial
  | some nd => exact h.2

/-! # Claim theorems -/

/-- Claim C1 (code behavior at the failing input): parsing the scenario
text produces And of a Course leaf and a TextCondition holding the raw
placeholder token, not the claimed Group tree: the placeholder leaf is
classified as a text condition, and the placeholder replacement only
inspects course leaves, so it never fires. -/
theorem c1_group_scenario_code_behavior :
    parse_expression 20 c1_input =
      some (.and [ .course codeCSCE1001 (some false) (some false),
                   .textCondition phGROUP0 Category.other ]) ∧
    parse_expression 20 c1_input ≠ some c1_claimed_tree := by
  refine ⟨rfl, ?_⟩
  intro h
  rw [show parse_expression 20 c1_input =
        some (.and [ .course codeCSCE1001 (some false) (some false),
                     .textCondition phGROUP0 Category.other ]) from rfl] at h
  simp [c1_claimed_tree, phGROUP0, codeCSCE1001] at h

/-- Claim C2 (counterexample to the claim as stated): in a catalog where
two distinct records share the join key CSCE1001, the record that does
not require MACT 2301 still appears (through its code) in MACT 2301's
is_prerequisite_for list, so the biconditional fails. -/
theorem c2_counterexample :
    ¬ ((extract_course_code_from_title c2_math.title ∈
          getAllOpt false c2_beta.prerequisite_ast.prerequisites) ↔
       (extract_course_code_from_title c2_beta.title ∈ is_prerequisite_for c2_catalog c2_math)) := by
  have e1 : extract_course_code_from_title c2_math.title = codeMACT2301 := rfl
  have e2 : extract_course_code_from_title c2_beta.title = codeCSCE1001 := rfl
  have e3 : extract_course_code_from_title c2_alpha.title = codeCSCE1001 := rfl
  have g1 : getAllOpt false c2_alpha.prerequisite_ast.prerequisites = [ codeMACT2301 ] := by
    simp [c2_alpha, c2_ast_with_mact, getAllOpt, get_all_prerequisite_courses]
  have g2 : getAllOpt false c2_beta.prerequisite_ast.prerequisites = [] := by
    simp [c2_beta, c2_ast_empty, getAllOpt]
  have g3 : getAllOpt false c2_math.prerequisite_ast.prerequisites = [] := by
    simp [c2_math, c2_ast_empty, getAllOpt]
  have h2 : build_reverse_prerequisite_map c2_catalog codeMACT2301 = [ codeCSCE1001 ] := by
    simp only [build_reverse_prerequisite_map, c2_catalog, List.foldl_cons, List.foldl_nil,
      addCourseDependents]
    rw [e1, e2, e3, g1, g2, g3]
    simp [addDependent, codeMACT2301, codeCSCE1001]
  have h3 : is_prerequisite_for c2_catalog c2_math = [ codeCSCE1001 ] := by
    simp only [is_prerequisite_for, e1, h2]
    rfl
  rw [g2, h3, e1, e2]
  simp

/-- Claim C2 (amended): in a catalog whose records with a join key have
pairwise distinct keys, a course P's key is collected from course C's
prerequisites tree if and only if C's key appears in the
is_prerequisite_for list attached to P. -/
theorem c2_graph_inversion (L : List CourseRec) (C P : CourseRec)
    (hC : C ∈ L) (hP : P ∈ L)
    (hCk : extract_course_code_from_title C.title ≠ "")
    (hPk : extract_course_code_from_title P.title ≠ "")
    (hinj : ∀ D ∈ L, ∀ E ∈ L,
        extract_course_code_from_title D.title = extract_course_code_from_title E.title →
        extract_course_code_from_title D.title ≠ "" → D = E) :
    (extract_course_code_from_title P.title ∈
       getAllOpt false C.prerequisite_ast.prerequisites) ↔
    (extract_course_code_from_title C.title ∈ is_prerequisite_for L P) := by
  rw [is_prerequisite_for,
    (List.perm_insertionSort (fun a b => a ≤ b) _).mem_iff,
    mem_build_reverse_prerequisite_map]
  constructor
  · intro hmem
    exact ⟨C, hC, rfl, hCk, hmem, hPk⟩
  · rintro ⟨D, hD, hDeq, hDne, hmem, _⟩
    have hDC : D = C := hinj D hD C hC hDeq.symm hDne
    subst hDC
    exact hmem

/-- Witness for C2: the inversion applied to a concrete two-course
catalog with distinct join keys. -/
theorem c2_graph_inversion_witness :
    codeMACT2301 ∈ getAllOpt false c2w_alpha.prerequisite_ast.prerequisites ∧
    codeCSCE1001 ∈ is_prerequisite_for c2w_catalog c2w_math := by
  have hmem : codeMACT2301 ∈ getAllOpt false c2w_alpha.prerequisite_ast.prerequisites := by
    simp [c2w_alpha, c2_ast_with_mact, getAllOpt, get_all_prerequisite_courses]
  have h := c2_graph_inversion c2w_catalog c2w_alpha c2w_math
    (by simp [c2w_catalog]) (by simp [c2w_catalog]) (by decide) (by decide)
    (by
      intro D hD E hE h1 h2
      simp only [c2w_catalog, List.mem_cons, List.not_mem_nil, or_false] at hD hE
      rcases hD with rfl | rfl <;> rcases hE with rfl | rfl
      · rfl
      · exact absurd h1 (by decide)
      · exact absurd h1 (by decide)
      · rfl)
  exact ⟨hmem, h.mp hmem⟩

/-- Claim C3 (counterexample to the claim as stated): the conjunction
split of the text produces two segments, neither of which yields a node,
yet the parser does not evaluate to None - it falls back to parsing the
whole unsplit text, producing a TextCondition. -/
theorem c3_counterexample :
    1 < (split_on_and (normalizeText c3_input)).length ∧
    (split_on_and (normalizeText c3_input)).filterMap (fun p => parse_or_expression (pyStrip p)) = [] ∧
    parse_expression 20 c3_input = some (.textCondition condAndBang Category.other) := by
  exact ⟨by decide, rfl, rfl⟩

/-- Claim C3 (amended): when a conjunction split yields more than one
segment, a single surviving child is returned directly and two or more
survivors become an And node; with zero survivors the combinator falls
back to parsing the whole (normalized) text as an or-expression.  The
disjunction level behaves the same way with parse_atomic as fallback. -/
theorem c3_combinator_collapse (n : Nat) (text : List Char)
    (h0 : text.isEmpty = false)
    (h1 : ((normalizeText text).contains '(' && (normalizeText text).contains ')') = false)
    (h2 : 1 < (split_on_and (normalizeText text)).length) :
    (parse_expression (n + 1) text =
      match (split_on_and (normalizeText text)).filterMap (fun p => parse_or_expression (pyStrip p)) with
      | [c] => some c
      | [] => parse_or_expression (normalizeText text)
      | c1 :: c2 :: rest => some (.and (c1 :: c2 :: rest))) ∧
    (∀ (ds : List Char), ds.isEmpty = false → 1 < (splitSep orChars ds).length →
      parse_or_expression ds =
        match (splitSep orChars ds).filterMap (fun p => parse_atomic (pyStrip p)) with
        | [c] => some c
        | [] => parse_atomic ds
        | c1 :: c2 :: rest => some (.or (c1 :: c2 :: rest))) := by
  constructor
  · show (parseCore (n + 1)).1 text = _
    simp only [parseCore]
    rw [h0, h1, if_pos h2]
    simp
  · intro ds hd0 hd2
    show parse_or_expression ds = _
    simp only [parse_or_expression]
    rw [hd0, if_pos hd2]
    simp

/-- Witness for C3: both fallbacks fire on concrete inputs whose
segments all die. -/
theorem c3_combinator_collapse_witness :
    parse_expression 20 c3_input = parse_or_expression (normalizeText c3_input) ∧
    parse_or_expression c3_or_input = parse_atomic c3_or_input := by
  have h := c3_combinator_collapse 19 c3_input rfl rfl (by decide)
  exact ⟨h.1, h.2 c3_or_input rfl (by decide)⟩

/-- Claim C4 (counterexample to the claim as stated): the fragment
triggers the standing row (first in table order) and the approval row,
yet the classifier assigns approval, the later of the two. -/
theorem c4_counterexample :
    parse_atomic c4_frag = some (.textCondition condStandingApproval Category.approval) ∧
    categoryMatches Category.standing (toLowerL c4_frag) = true ∧
    Category.approval ≠ Category.standing := by
  exact ⟨rfl, by decide, by decide⟩

/-- Claim C4 (amended): the classifier assigns the LAST matching
category in table order (standing, approval, exemption, preparation):
every matching category's index is bounded by the result's index, the
result itself matches when it is not other, a fragment matching no
category is classified other, and the category stored in any
TextCondition produced by the atomic classifier is exactly the
classifier's value on the lowered stored fragment. -/
theorem c4_category_priority (tl : List Char) :
    (∀ c : Category, categoryMatches c tl = true →
       classifyCategory tl ≠ Category.other ∧ tableIdx c ≤ tableIdx (classifyCategory tl)) ∧
    (classifyCategory tl ≠ Category.other → categoryMatches (classifyCategory tl) tl = true) ∧
    ((∀ c : Category, categoryMatches c tl = false) → classifyCategory tl = Category.other) ∧
    (∀ (t : List Char) (s : String) (cat : Category),
       parse_atomic t = some (.textCondition s cat) → cat = classifyCategory (toLowerL s.data)) := by
  refine ⟨?_, ?_, ?_, ?_⟩
  · intro c hc
    cases c
    case other => simp [categoryMatches] at hc
    all_goals
      cases hp : categoryMatches Category.preparation tl <;>
        cases he : categoryMatches Category.exemption tl <;>
        cases ha : categoryMatches Category.approval tl <;>
        cases hs : categoryMatches Category.standing tl <;>
        simp_all [classifyCategory_eq, tableIdx]
  · intro h
    cases hp : categoryMatches Category.preparation tl <;>
      cases he : categoryMatches Category.exemption tl <;>
      cases ha : categoryMatches Category.approval tl <;>
      cases hs : categoryMatches Category.standing tl <;>
      simp_all [classifyCategory_eq]
  · intro h
    have hp := h Category.preparation
    have he := h Category.exemption
    have ha := h Category.approval
    have hs := h Category.standing
    simp [classifyCategory_eq, hp, he, ha, hs]
  · intro t s cat h
    simp only [parse_atomic] at h
    split at h
    · exact absurd h (by simp)
    · split at h
      · split at h
        · exact absurd h (by simp)
        · split at h
          · simp only [Option.some.injEq, Node.textCondition.injEq] at h
            obtain ⟨h1, h2⟩ := h
            subst h1
            exact h2.symm
          · exact absurd h (by simp)
      · split at h
        · exact absurd h (by simp)
        · split at h
          · simp only [Option.some.injEq, Node.textCondition.injEq] at h
            obtain ⟨h1, h2⟩ := h
            subst h1
            exact h2.symm
          · exact absurd h (by simp)

/-- Witness for C4: applied to the standing-and-approval fragment. -/
theorem c4_category_priority_witness :
    classifyCategory (toLowerL c4_frag) ≠ Category.other ∧
    tableIdx Category.standing ≤ tableIdx (classifyCategory (toLowerL c4_frag)) ∧
    categoryMatches (classifyCategory (toLowerL c4_frag)) (toLowerL c4_frag) = true ∧
    Category.approval = classifyCategory (toLowerL condStandingApproval.data) := by
  have h := c4_category_priority (toLowerL c4_frag)
  have h1 := h.1 Category.standing (by decide)
  exact ⟨h1.1, h1.2, h.2.1 h1.1,
    h.2.2.2 c4_frag condStandingApproval Category.approval rfl⟩

/-- Claim C5: the prerequisite-direction collection reaches exactly the
course leaves outside Concurrent wrappers (so a code occurring only
inside a Concurrent node of the prerequisites tree contributes no edge),
a Concurrent node contributes nothing at all in that direction, and the
corequisite-direction collection (include_corequisites true, as used by
build_reverse_corequisite_map) reaches every course leaf, descending
into Concurrent wrappers. -/
theorem c5_concurrent_descent (t : Node) (c : String) :
    (c ∈ courseLeaves t → c ∉ courseLeavesOutsideConcurrent t →
       c ∉ get_all_prerequisite_courses false t) ∧
    (c ∈ get_all_prerequisite_courses true t ↔ c ∈ courseLeaves t) ∧
    (∀ (inner : Node) (note : String),
       get_all_prerequisite_courses false (Node.concurrent inner note) = []) := by
  refine ⟨?_, getAll_true_mem_iff t c, ?_⟩
  · intro _ houtside hmem
    exact houtside ((getAll_false_mem_iff t c).mp hmem)
  · intro inner note
    simp [get_all_prerequisite_courses]

/-- Witness for C5: a code occurring only inside a Concurrent wrapper is
invisible to the prerequisite-direction traversal and visible to the
corequisite-direction traversal. -/
theorem c5_concurrent_descent_witness :
    codeBBBB ∉ get_all_prerequisite_courses false c5_tree ∧
    (codeBBBB ∈ get_all_prerequisite_courses true c5_tree ↔ codeBBBB ∈ courseLeaves c5_tree) := by
  have h := c5_concurrent_descent c5_tree codeBBBB
  refine ⟨h.1 ?_ ?_, h.2.1⟩
  · simp [c5_tree, courseLeaves, codeBBBB]
  · simp [c5_tree, courseLeavesOutsideConcurrent, codeBBBB, codeAAAA]

/-- Claim C6 (counterexample to the claim as stated): the note is taken
from an interior for-clause and truncated at the first period; it is
neither empty nor the verbatim trailing reason. -/
theorem c6_counterexample :
    parse_concurrent c6_note_input =
      some (.concurrent (.or [ .course codeCSCE1001 none none, .course codeCSCE1101 none none ])
        noteNow) ∧
    noteNow ≠ emptyS ∧ noteNow ≠ noteNowVerbatim := by
  exact ⟨rfl, by decide, by decide⟩

/-- Claim C6 (amended): zero COURSE_PATTERN matches yield no node, one
match yields a Concurrent node wrapping a Course leaf, several matches
yield a Concurrent node wrapping an Or of Course leaves; the note is the
noteOf computation (first for-plus-whitespace occurrence anywhere,
captured up to the first period or the end, trimmed), which is empty
whenever the lowered text does not contain for. -/
theorem c6_concurrent_parse (text : List Char) :
    (findAllCourses false 0 text = [] → parse_concurrent text = none) ∧
    (∀ m, findAllCourses false 0 text = [m] →
       parse_concurrent text = some (.concurrent (.course (codeOf m) none none) (noteOf text))) ∧
    (∀ m1 m2 ms, findAllCourses false 0 text = m1 :: m2 :: ms →
       parse_concurrent text =
         some (.concurrent
           (.or ((m1 :: m2 :: ms).map (fun m => Node.course (codeOf m) none none)))
           (noteOf text))) ∧
    (isSubL forChars (toLowerL text) = false → noteOf text = "") := by
  refine ⟨?_, ?_, ?_, ?_⟩
  · intro h
    simp only [parse_concurrent, h]
    split <;> rfl
  · intro m h
    cases text with
    | nil => simp [findAllCourses] at h
    | cons a t =>
      simp only [parse_concurrent, h, List.isEmpty_cons]
      rfl
  · intro m1 m2 ms h
    cases text with
    | nil => simp [findAllCourses] at h
    | cons a t =>
      simp only [parse_concurrent, h, List.isEmpty_cons]
      rfl
  · intro h
    simp only [noteOf, h]
    rfl

/-- Witness for C6: the single-match case at a concrete input. -/
theorem c6_concurrent_parse_witness :
    parse_concurrent c6_single = some (.concurrent (.course codeCSCE1001 none none) emptyS) := by
  have h := (c6_concurrent_parse c6_single).2.1 c6_match rfl
  exact h

/-- Claim C7 (code behavior at the failing input): a non-string
prerequisites field raises before prereq_text is bound.  On the first
course the except handler itself raises NameError and the whole batch
aborts; on a later course the batch continues but the recorded raw_text
is the previous course's text, not the offending course's own. -/
theorem c7_batch_abort_behavior :
    processCourses 20 none [ c7_bad_course ] = Except.error c7_name_error ∧
    processCourses 20 none [ c7_good_course, c7_bad_course ] =
      Except.ok [ { title := c7_good_course.title,
                    prerequisite_ast := parse 20 c7_good_text emptyS },
                  { title := c7_bad_course.title,
                    prerequisite_ast :=
                      { prerequisites := none, corequisites := none,
                        raw_text := c7_good_text,
                        parse_error := some c7_attr_error } } ] ∧
    c7_good_text ≠ emptyS := by
  exact ⟨rfl, rfl, by decide⟩

/-- Claim C8 (counterexample to the claim as stated): interior
whitespace runs are not collapsed by the normalization step. -/
theorem c8_counterexample :
    normalizeText c8_doublespace = c8_doublespace ∧ c8_doublespace ≠ c8_collapsed := by
  exact ⟨rfl, by decide⟩

/-- Claim C8 (amended): normalization trims surrounding whitespace and
strips a leading boilerplate label case-insensitively, and nothing else:
for any already-trimmed s, the label text wrapped around s normalizes to
exactly s, interior whitespace untouched. -/
theorem c8_normalizer (s : List Char)
    (h1 : s.dropWhile isPySpace = s)
    (h2 : s.reverse.dropWhile isPySpace = s.reverse) :
    normalizeText (c8Label ++ s) = s := by
  cases s with
  | nil => rfl
  | cons c s' =>
    have hc : ¬ (isPySpace c = true) := by
      have := List.dropWhile_eq_self_iff.mp h1 (by simp)
      simpa using this
    have hne : (c :: s').reverse ≠ [] := by simp
    obtain ⟨d, t, hdt⟩ := List.exists_cons_of_ne_nil hne
    have hd : ¬ (isPySpace d = true) := by
      rw [hdt] at h2
      have := List.dropWhile_eq_self_iff.mp h2 (by simp)
      simpa using this
    have hstep1 : (c8Label ++ (c :: s')).dropWhile isPySpace = c8LabelCore ++ (c :: s') := by
      show ((' ' :: ' ' :: c8LabelCore) ++ (c :: s')).dropWhile isPySpace = _
      rw [List.cons_append, List.cons_append,
          List.dropWhile_cons_of_pos (by decide), List.dropWhile_cons_of_pos (by decide)]
      show (('P' :: c8LabelTail) ++ (c :: s')).dropWhile isPySpace = _
      rw [List.cons_append, List.dropWhile_cons_of_neg (by decide)]
      rfl
    have hstep2 : pyStrip (c8Label ++ (c :: s')) = c8LabelCore ++ (c :: s') := by
      unfold pyStrip pyStripChars
      rw [hstep1, List.reverse_append, hdt, List.cons_append,
          List.dropWhile_cons_of_neg hd, ← List.cons_append, ← hdt,
          ← List.reverse_append, List.reverse_reverse]
    have hlab1 : stripLabelPreOrConc (c8LabelCore ++ (c :: s')) =
        c8LabelCore ++ (c :: s') := rfl
    have hlab2 : stripLabelPrereq (c8LabelCore ++ (c :: s')) =
        (c :: s').dropWhile isPySpace := rfl
    unfold normalizeText
    rw [hstep2, hlab1, hlab2, h1]

/-- Witness for C8: the label wrapped around a trimmed sample. -/
theorem c8_normalizer_witness :
    normalizeText (c8Label ++ c8_sample) = c8_sample := by
  exact c8_normalizer c8_sample rfl rfl

/-- Claim C9 (counterexample to the claim as stated): a Course leaf
inside a Concurrent wrapper carries only its course_code (both boolean
fields absent), and a course code stored by the parser can retain an
interior tab, because only space characters are removed from the
matched text. -/
theorem c9_counterexample :
    (parse 20 emptyS c9_concurrent_field).corequisites =
      some (.concurrent (.course codeCSCE1001 none none) emptyS) ∧
    (parse 20 c9_tab_text emptyS).prerequisites =
      some (.course c9_tab_text (some false) (some false)) ∧
    '\t' ∈ c9_tab_text.data := by
  exact ⟨rfl, rfl, by decide⟩

/-- Claim C9 (amended): in every AST the parser outputs, Course leaves
outside Concurrent wrappers carry all three fields with is_optional
false, Course leaves inside Concurrent wrappers carry only course_code,
and every stored code is a COURSE_PATTERN match with its space
characters removed (4 uppercase letters, an optional non-space
whitespace residue, 4 digits). -/
theorem c9_course_leaf_fields (fuel : Nat) (prerequisites_text concurrent_text : String) :
    LeafFieldsOpt (parse fuel prerequisites_text concurrent_text).prerequisites ∧
    LeafFieldsOpt (parse fuel prerequisites_text concurrent_text).corequisites :=
  ⟨leafFieldsOpt_of_wfOpt (parse_wf fuel prerequisites_text concurrent_text).1,
   leafFieldsOpt_of_wfOpt (parse_wf fuel prerequisites_text concurrent_text).2⟩

/-- Claim C10: every And node and every Or node in any AST the parser
outputs (either tree of the per-course result, for any fuel and any
input strings) has at least two children. -/
theorem c10_min_two_children (fuel : Nat) (prerequisites_text concurrent_text : String) :
    MinTwoOpt (parse fuel prerequisites_text concurrent_text).prerequisites ∧
    MinTwoOpt (parse fuel prerequisites_text concurrent_text).corequisites :=
  ⟨minTwoOpt_of_wfOpt (parse_wf fuel prerequisites_text concurrent_text).1,
   minTwoOpt_of_wfOpt (parse_wf fuel prerequisites_text concurrent_text).2⟩
